import Mathlib

/-!
Verification development for a constant-product multi-pool routing engine.

The Rust source (`src/router/mod.rs`, `src/uni_v2_pool.rs`) is shallowly
embedded here.  `f64` values are modelled as exact rationals `ℚ`; the spec's
"within floating tolerance" phrases are settled as exact equalities or
inequalities over `ℚ`.  `f64::sqrt` is modelled by `fsqrt`, which is exact on
ratios of perfect squares (the only inputs on which it is evaluated in this
development) and returns `0` elsewhere.  The `HashMap<&str, usize>` token
index built by `Router::new` enumerates first occurrences in order, so it is
modelled by the list of distinct token names in first-seen order together
with positional lookup (`idxOf?`); a failed `HashMap` index panic in
`Router::solve` is modelled by `Except.error` carrying the state at the
moment of the panic.
-/

/-- One Uniswap-V2 pool record (`src/uni_v2_pool.rs`): a token pair with its
two reserves. -/
structure UniV2Pool where
  token0 : String
  token1 : String
  reserve0 : ℚ
  reserve1 : ℚ

/-- Model of `f64::sqrt`.  On a nonnegative rational whose numerator and
denominator are perfect squares the IEEE-754 double square root is exact and
equals this value; elsewhere this model returns `0` (never evaluated there in
this development). -/
def fsqrt (x : ℚ) : ℚ :=
  if 0 ≤ x.num ∧ (Nat.sqrt x.num.toNat * Nat.sqrt x.num.toNat : ℤ) = x.num ∧
      Nat.sqrt x.den * Nat.sqrt x.den = x.den then
    (Nat.sqrt x.num.toNat : ℚ) / (Nat.sqrt x.den : ℚ)
  else 0

/-- First-seen-order deduplication, as `itertools::unique` produces for the
token stream of `Router::new`; `seen` accumulates the names already kept. -/
def uniqueAux (seen : List String) : List String → List String
  | [] => []
  | t :: ts => if t ∈ seen then uniqueAux seen ts else t :: uniqueAux (t :: seen) ts

/-- The distinct token names of a pool collection in first-seen order: the
key set of the `token_index` map of `Router::new`, where the index of a name
is its position in this list. -/
def uniqueTokens (pools : List UniV2Pool) : List String :=
  uniqueAux [] (pools.flatMap fun p => [p.token0, p.token1])

/-- Positional lookup in the token list: the content of the
`token_index: HashMap<&str, usize>` of the router. -/
def idxOf? (a : String) : List String → Option ℕ
  | [] => none
  | b :: l => if b = a then some 0 else (idxOf? a l).map (· + 1)

/-- `PairwiseLiquidities` (`src/router/liquidities.rs`): an `n × n` table of
geometric liquidities, read and written at the canonically ordered index
pair. -/
structure PairwiseLiquidities where
  inner : List (List ℚ)

/-- `PairwiseLiquidities::with_size`: the zero-filled `n × n` table. -/
def PairwiseLiquidities.with_size (num_tokens : ℕ) : PairwiseLiquidities :=
  ⟨List.replicate num_tokens (List.replicate num_tokens 0)⟩

/-- `PairwiseLiquidities::index`: canonical ordering of an index pair. -/
def canonIndex (a b : ℕ) : ℕ × ℕ := if a < b then (a, b) else (b, a)

/-- `PairwiseLiquidities::get`. -/
def PairwiseLiquidities.get (L : PairwiseLiquidities) (token_a token_b : ℕ) : ℚ :=
  (L.inner.getD (canonIndex token_a token_b).1 []).getD (canonIndex token_a token_b).2 0

/-- `*liquidity_by_pair.get_mut(a, b) += x`, the only write the source
performs through `get_mut`. -/
def PairwiseLiquidities.addAt (L : PairwiseLiquidities) (token_a token_b : ℕ)
    (x : ℚ) : PairwiseLiquidities :=
  let i := (canonIndex token_a token_b).1
  let j := (canonIndex token_a token_b).2
  let row := L.inner.getD i []
  ⟨L.inner.set i (row.set j (row.getD j 0 + x))⟩

/-- The table is an `n × n` matrix, as `with_size` creates and every write
preserves. -/
def PairwiseLiquidities.SquareOf (L : PairwiseLiquidities) (n : ℕ) : Prop :=
  L.inner.length = n ∧ ∀ row ∈ L.inner, row.length = n

/-- `Router` (`src/router/mod.rs`).  `tokens` carries the content of
`token_index` (name at position `i` has index `i`). -/
structure Router where
  n_tokens : ℕ
  tokens : List String
  reserve_by_token : List ℚ
  q_by_token : List ℚ
  liquidity_by_pair : PairwiseLiquidities

/-- `const TOLERANCE: f64 = 1e-12`. -/
def TOLERANCE : ℚ := 1 / 1000000000000

/-- `const MAX_ITERS: usize = 20_000`. -/
def MAX_ITERS : ℕ := 20000

/-- The body of the pool aggregation loop of `Router::new`: add the two
reserves into `reserve_by_token` and the geometric liquidity into the pair
table. -/
def buildStep (tokens : List String) (acc : List ℚ × PairwiseLiquidities)
    (pool : UniV2Pool) : List ℚ × PairwiseLiquidities :=
  let index_0 := (idxOf? pool.token0 tokens).getD 0
  let index_1 := (idxOf? pool.token1 tokens).getD 0
  let reserves_0 := acc.1.set index_0 (acc.1.getD index_0 0 + pool.reserve0)
  let reserves_1 := reserves_0.set index_1 (reserves_0.getD index_1 0 + pool.reserve1)
  (reserves_1, acc.2.addAt index_0 index_1 (fsqrt (pool.reserve0 * pool.reserve1)))

/-- `Router::new`. -/
def Router.new (pools : List UniV2Pool) : Router :=
  let tokens := uniqueTokens pools
  let n_tokens := tokens.length
  let built := pools.foldl (buildStep tokens)
    (List.replicate n_tokens 0, PairwiseLiquidities.with_size n_tokens)
  { n_tokens := n_tokens, tokens := tokens, reserve_by_token := built.1,
    q_by_token := List.replicate n_tokens 1, liquidity_by_pair := built.2 }

/-- The inner accumulation of a Gauss-Seidel update:
`Σ_v K(token,v) / q_v` over all tokens `v`. -/
def denomSum (st : Router) (token : ℕ) : ℚ :=
  (List.range st.n_tokens).foldl
    (fun d paired_token =>
      d + st.liquidity_by_pair.get token paired_token / st.q_by_token.getD paired_token 0) 0

/-- One token's Gauss-Seidel update inside a sweep of
`Router::no_arbitrage_equilibrium`: skip the output token, otherwise set
`q[token] = T[token] / (sum of K(token,v) / q[v])` and fold the relative
change into the running maximum. -/
def sweepStep (output_token : ℕ) (acc : Router × ℚ) (token : ℕ) : Router × ℚ :=
  if token = output_token then acc
  else
    let st := acc.1
    let q := st.q_by_token.getD token 0
    let updated_q := st.reserve_by_token.getD token 0 / denomSum st token
    let relative_change := |updated_q - q| / q
    ({ st with q_by_token := st.q_by_token.set token updated_q },
      if relative_change > acc.2 then relative_change else acc.2)

/-- One full sweep of the fixed-point loop over all tokens in ascending
index order, returning the updated state and the maximal relative change. -/
def sweep (st : Router) (output_token : ℕ) : Router × ℚ :=
  (List.range st.n_tokens).foldl (sweepStep output_token) (st, 0)

/-- The `for _ in 0..MAX_ITERS` loop of `Router::no_arbitrage_equilibrium`:
sweep, then break as soon as the maximal relative change of the sweep is
below `TOLERANCE`. -/
def equilibriumLoop : ℕ → Router → ℕ → Router
  | 0, st, _ => st
  | fuel + 1, st, output_token =>
    let swept := sweep st output_token
    if swept.2 < TOLERANCE then swept.1 else equilibriumLoop fuel swept.1 output_token

/-- `k` unconditional sweeps (no convergence test), used to characterise how
far `equilibriumLoop` runs. -/
def iterSweeps : ℕ → Router → ℕ → Router
  | 0, st, _ => st
  | fuel + 1, st, output_token => iterSweeps fuel (sweep st output_token).1 output_token

/-- The number of sweeps `equilibriumLoop` performs with the given fuel. -/
def loopSteps : ℕ → Router → ℕ → ℕ
  | 0, _, _ => 0
  | fuel + 1, st, output_token =>
    if (sweep st output_token).2 < TOLERANCE then 1
    else 1 + loopSteps fuel (sweep st output_token).1 output_token

/-- `Router::normalize_prices` with the reference token as a parameter; the
source fixes `REFERENCE_TOKEN = 0` (see `Router.normalize_prices`).  The
generalisation is modelled from the spec's renormalization-reference wording
for the gauge-invariance property. -/
def normalizePricesWith (st : Router) (reference_token : ℕ) : Router :=
  let ref_price := st.q_by_token.getD reference_token 0
  { st with q_by_token := st.q_by_token.map (· / ref_price) }

/-- `Router::normalize_prices`: divide every price by the price of token 0. -/
def Router.normalize_prices (st : Router) : Router := normalizePricesWith st 0

/-- The balance-law sum `Σ_v K(u,v) · (q_u / q_v)` as computed by the
output-reserve loop at the end of `Router::no_arbitrage_equilibrium`. -/
def balanceSum (st : Router) (u : ℕ) : ℚ :=
  (List.range st.n_tokens).foldl
    (fun acc v =>
      acc + st.liquidity_by_pair.get u v * (st.q_by_token.getD u 0 / st.q_by_token.getD v 0)) 0

/-- `Router::no_arbitrage_equilibrium`: run the capped fixed-point loop,
renormalize, recompute the output token's reserve from the balance law, and
return the extracted difference together with the updated state. -/
def Router.no_arbitrage_equilibrium (st : Router) (output_token : ℕ) : ℚ × Router :=
  let st1 := equilibriumLoop MAX_ITERS st output_token
  let st2 := st1.normalize_prices
  let output_reserve := balanceSum st2 output_token
  (st2.reserve_by_token.getD output_token 0 - output_reserve,
    { st2 with reserve_by_token := st2.reserve_by_token.set output_token output_reserve })

/-- `Router::solve`: resolve both token names (a missing name panics before
any mutation, modelled by `Except.error` carrying the untouched state), then
increment the input token's total reserve and run the equilibrium solver. -/
def Router.solve (st : Router) (input_token output_token : String)
    (input_amount : ℚ) : Except Router (ℚ × Router) :=
  match idxOf? input_token st.tokens with
  | none => .error st
  | some input_index =>
    match idxOf? output_token st.tokens with
    | none => .error st
    | some output_index =>
      let bumped := st.reserve_by_token.set input_index
        (st.reserve_by_token.getD input_index 0 + input_amount)
      let st1 := { st with reserve_by_token := bumped }
      .ok (st1.no_arbitrage_equilibrium output_index)

/-- The returned output amount of a `solve` call, `none` when the call
panics on a name lookup. -/
def solveOut (st : Router) (input_token output_token : String) (input_amount : ℚ) : Option ℚ :=
  match st.solve input_token output_token input_amount with
  | .error _ => none
  | .ok p => some p.1

/-- The router state after a `solve` call (on a lookup panic: the state at
the moment of the panic). -/
def solveState (st : Router) (input_token output_token : String) (input_amount : ℚ) : Router :=
  match st.solve input_token output_token input_amount with
  | .error s => s
  | .ok p => p.2

/-- The reserve a single pool contributes to token `t`, on either side. -/
def reserveContrib (t : String) (p : UniV2Pool) : ℚ :=
  (if p.token0 = t then p.reserve0 else 0) + (if p.token1 = t then p.reserve1 else 0)

/-- Spec-side sum: a token's reserve summed over all pools in which it
appears, on either side. -/
def specReserveSum (pools : List UniV2Pool) (t : String) : ℚ :=
  pools.foldl (fun acc p => acc + reserveContrib t p) 0

/-- The pool directly links the (distinct) token indices `i` and `j`, in
either orientation. -/
def poolLinksPair (tokens : List String) (i j : ℕ) (p : UniV2Pool) : Prop :=
  (idxOf? p.token0 tokens = some i ∧ idxOf? p.token1 tokens = some j) ∨
  (idxOf? p.token0 tokens = some j ∧ idxOf? p.token1 tokens = some i)

instance (tokens : List String) (i j : ℕ) (p : UniV2Pool) :
    Decidable (poolLinksPair tokens i j p) := by
  unfold poolLinksPair
  exact inferInstance

/-- The geometric liquidity a single pool contributes to the pair `(i, j)`:
`√(r0·r1)` when it links the pair, `0` otherwise. -/
def pairContrib (tokens : List String) (i j : ℕ) (p : UniV2Pool) : ℚ :=
  if poolLinksPair tokens i j p then fsqrt (p.reserve0 * p.reserve1) else 0

/-- Spec-side sum: `Σ √(r0·r1)` over all pools linking the token pair
`(i, j)`, in either orientation. -/
def specPairLiquidity (pools : List UniV2Pool) (i j : ℕ) : ℚ :=
  pools.foldl (fun acc p => acc + pairContrib (uniqueTokens pools) i j p) 0

/-- The no-arbitrage balance law `Σ_v K(u,v) · (q_u / q_v) = T_u` holds for
every token of the graph. -/
def AtEquilibrium (st : Router) : Prop :=
  ∀ u, u < st.n_tokens → balanceSum st u = st.reserve_by_token.getD u 0

instance (st : Router) : Decidable (AtEquilibrium st) :=
  Nat.decidableBallLT st.n_tokens fun u _ => balanceSum st u = st.reserve_by_token.getD u 0

/-! ### List helpers -/

theorem listGetD_set_self {α : Type} (l : List α) (n : ℕ) (v d : α) (h : n < l.length) :
    (l.set n v).getD n d = v := by
  simp [List.getD_eq_getElem?_getD, List.getElem?_set_self h]

theorem listGetD_set_ne {α : Type} (l : List α) {n m : ℕ} (h : n ≠ m) (v d : α) :
    (l.set n v).getD m d = l.getD m d := by
  simp [List.getD_eq_getElem?_getD, List.getElem?_set_ne h]

theorem listSet_getD_self {α : Type} (l : List α) (n : ℕ) (d : α) :
    l.set n (l.getD n d) = l := by
  induction l generalizing n with
  | nil => simp
  | cons a l ih =>
    cases n with
    | zero => simp
    | succ m => simpa using ih m

theorem listGetD_mem {α : Type} {l : List α} {n : ℕ} (h : n < l.length) (d : α) :
    l.getD n d ∈ l := by
  rw [List.getD_eq_getElem?_getD, List.getElem?_eq_getElem h]
  exact List.getElem_mem h

theorem foldl_add_eq_sum {α : Type} (g : α → ℚ) (l : List α) (c : ℚ) :
    l.foldl (fun a p => a + g p) c = c + (l.map g).sum := by
  induction l generalizing c with
  | nil => simp
  | cons p l ih => simp [ih, add_assoc]

theorem getD_map_div (l : List ℚ) (c : ℚ) (t : ℕ) :
    (l.map (· / c)).getD t 0 = l.getD t 0 / c := by
  induction l generalizing t with
  | nil => simp
  | cons a l ih =>
    cases t with
    | zero => simp
    | succ m => simpa using ih m

theorem div_div_div_cancel_of_ne {a b c : ℚ} (hc : c ≠ 0) : a / c / (b / c) = a / b := by
  rcases eq_or_ne b 0 with hb | hb
  · simp [hb]
  · field_simp

/-! ### Lookup helpers -/

theorem idxOf?_lt_length {a : String} {l : List String} {i : ℕ} (h : idxOf? a l = some i) :
    i < l.length := by
  induction l generalizing i with
  | nil => simp [idxOf?] at h
  | cons b l ih =>
    rw [idxOf?] at h
    split at h
    · injection h with h0
      subst h0
      simp
    · rw [Option.map_eq_some'] at h
      obtain ⟨j, hj, rfl⟩ := h
      simpa using ih hj

theorem idxOf?_getD {a : String} {l : List String} {i : ℕ} (h : idxOf? a l = some i) :
    l.getD i "" = a := by
  induction l generalizing i with
  | nil => simp [idxOf?] at h
  | cons b l ih =>
    rw [idxOf?] at h
    split at h
    · rename_i hb
      injection h with h0
      subst h0
      simpa using hb
    · rw [Option.map_eq_some'] at h
      obtain ⟨j, hj, rfl⟩ := h
      simpa using ih hj

theorem idxOf?_inj {a b : String} {l : List String} {i : ℕ}
    (ha : idxOf? a l = some i) (hb : idxOf? b l = some i) : a = b := by
  have h1 := idxOf?_getD ha
  have h2 := idxOf?_getD hb
  rw [← h1, ← h2]

theorem idxOf?_isSome_of_mem {a : String} {l : List String} (h : a ∈ l) :
    ∃ i, idxOf? a l = some i := by
  induction l with
  | nil => simp at h
  | cons b l ih =>
    by_cases hb : b = a
    · exact ⟨0, by simp [idxOf?, hb]⟩
    · have ha : a ∈ l := by
        rcases List.mem_cons.mp h with h1 | h1
        · exact absurd h1.symm hb
        · exact h1
      obtain ⟨j, hj⟩ := ih ha
      exact ⟨j + 1, by simp [idxOf?, hb, hj]⟩

theorem mem_uniqueAux {a : String} : ∀ (seen l : List String),
    a ∈ uniqueAux seen l ↔ a ∈ l ∧ a ∉ seen
  | seen, [] => by simp [uniqueAux]
  | seen, t :: ts => by
    rw [uniqueAux]
    split
    · rename_i ht
      rw [mem_uniqueAux seen ts]
      constructor
      · rintro ⟨h1, h2⟩
        exact ⟨List.mem_cons_of_mem _ h1, h2⟩
      · rintro ⟨h1, h2⟩
        rcases List.mem_cons.mp h1 with rfl | h1
        · exact absurd ht h2
        · exact ⟨h1, h2⟩
    · rename_i ht
      rw [List.mem_cons, mem_uniqueAux (t :: seen) ts]
      constructor
      · rintro (rfl | ⟨h1, h2⟩)
        · exact ⟨List.mem_cons_self _ _, ht⟩
        · refine ⟨List.mem_cons_of_mem _ h1, fun hs => h2 (List.mem_cons_of_mem _ hs)⟩
      · rintro ⟨h1, h2⟩
        rcases List.mem_cons.mp h1 with rfl | h1
        · exact Or.inl rfl
        · by_cases hat : a = t
          · exact Or.inl hat
          · refine Or.inr ⟨h1, fun hs => ?_⟩
            rcases List.mem_cons.mp hs with h3 | h3
            · exact hat h3
            · exact h2 h3

theorem token0_mem_uniqueTokens {pools : List UniV2Pool} {p : UniV2Pool} (hp : p ∈ pools) :
    p.token0 ∈ uniqueTokens pools := by
  rw [uniqueTokens, mem_uniqueAux]
  refine ⟨?_, by simp⟩
  rw [List.mem_flatMap]
  exact ⟨p, hp, by simp⟩

theorem token1_mem_uniqueTokens {pools : List UniV2Pool} {p : UniV2Pool} (hp : p ∈ pools) :
    p.token1 ∈ uniqueTokens pools := by
  rw [uniqueTokens, mem_uniqueAux]
  refine ⟨?_, by simp⟩
  rw [List.mem_flatMap]
  exact ⟨p, hp, by simp⟩

/-! ### Pairwise-table helpers -/

theorem canonIndex_comm (a b : ℕ) : canonIndex a b = canonIndex b a := by
  unfold canonIndex
  split <;> split <;> rename_i h1 h2
  · omega
  · rfl
  · rfl
  · have hab : a = b := by omega
    subst hab
    rfl

theorem PairwiseLiquidities.get_comm (L : PairwiseLiquidities) (a b : ℕ) :
    L.get a b = L.get b a := by
  unfold PairwiseLiquidities.get
  rw [canonIndex_comm]

theorem canonIndex_eq_iff {i j a b : ℕ} :
    canonIndex a b = canonIndex i j ↔ (a = i ∧ b = j) ∨ (a = j ∧ b = i) := by
  unfold canonIndex
  split <;> split <;> rename_i h1 h2 <;> simp only [Prod.mk.injEq] <;> omega

theorem canonIndex_mem {a b n : ℕ} (ha : a < n) (hb : b < n) :
    (canonIndex a b).1 < n ∧ (canonIndex a b).2 < n := by
  unfold canonIndex
  split <;> exact ⟨by omega, by omega⟩

theorem with_size_squareOf (n : ℕ) : (PairwiseLiquidities.with_size n).SquareOf n := by
  refine ⟨by simp [PairwiseLiquidities.with_size], fun row hrow => ?_⟩
  rw [PairwiseLiquidities.with_size] at hrow
  simp only [List.mem_replicate] at hrow
  simp [hrow.2]

theorem addAt_squareOf {L : PairwiseLiquidities} {n : ℕ} (h : L.SquareOf n)
    (a b : ℕ) (x : ℚ) : (L.addAt a b x).SquareOf n := by
  obtain ⟨h1, h2⟩ := h
  refine ⟨by simpa [PairwiseLiquidities.addAt], fun row hrow => ?_⟩
  rw [PairwiseLiquidities.addAt] at hrow
  by_cases hi : (canonIndex a b).1 < L.inner.length
  · rcases List.mem_or_eq_of_mem_set hrow with hmem | heq
    · exact h2 row hmem
    · subst heq
      rw [List.length_set]
      exact h2 _ (listGetD_mem hi _)
  · rw [List.set_eq_of_length_le (by omega)] at hrow
    exact h2 row hrow

theorem get_addAt {L : PairwiseLiquidities} {n : ℕ} (h : L.SquareOf n)
    {a b : ℕ} (ha : a < n) (hb : b < n) (x : ℚ) (i j : ℕ) :
    (L.addAt a b x).get i j =
      L.get i j + if canonIndex a b = canonIndex i j then x else 0 := by
  obtain ⟨h1, h2⟩ := h
  obtain ⟨hp, hq⟩ := canonIndex_mem ha hb
  unfold PairwiseLiquidities.addAt PairwiseLiquidities.get
  by_cases hfst : (canonIndex a b).1 = (canonIndex i j).1
  · rw [← hfst, listGetD_set_self _ _ _ _ (by omega)]
    by_cases hsnd : (canonIndex a b).2 = (canonIndex i j).2
    · have hrowlen : (L.inner.getD (canonIndex a b).1 []).length = n :=
        h2 _ (listGetD_mem (by omega) _)
      rw [← hsnd, listGetD_set_self _ _ _ _ (by omega)]
      have hcond : canonIndex a b = canonIndex i j := Prod.ext hfst hsnd
      simp [hcond]
    · rw [listGetD_set_ne _ hsnd]
      have hcond : ¬ canonIndex a b = canonIndex i j := by
        intro hc
        exact hsnd (congrArg Prod.snd hc)
      simp [hcond, hfst]
  · rw [listGetD_set_ne _ hfst]
    have hcond : ¬ canonIndex a b = canonIndex i j := by
      intro hc
      exact hfst (congrArg Prod.fst hc)
    simp [hcond]

theorem get_with_size (n : ℕ) (i j : ℕ) : (PairwiseLiquidities.with_size n).get i j = 0 := by
  unfold PairwiseLiquidities.get PairwiseLiquidities.with_size
  simp only
  by_cases hi : (canonIndex i j).1 < n
  · have houter : (List.replicate n (List.replicate n (0:ℚ))).getD (canonIndex i j).1 [] =
        List.replicate n 0 := by
      rw [List.getD_eq_getElem?_getD, List.getElem?_replicate_of_lt hi]
      rfl
    rw [houter, List.getD_eq_getElem?_getD, List.getElem?_replicate]
    split <;> rfl
  · have houter : (List.replicate n (List.replicate n (0:ℚ))).getD (canonIndex i j).1 [] =
        [] := by
      rw [List.getD_eq_getElem?_getD, List.getElem?_eq_none (by simpa using hi)]
      rfl
    rw [houter]
    rfl

/-! ### Sum forms of the folds -/

theorem denomSum_eq_sum (st : Router) (t : ℕ) :
    denomSum st t = ((List.range st.n_tokens).map
      (fun v => st.liquidity_by_pair.get t v / st.q_by_token.getD v 0)).sum := by
  simpa [denomSum] using
    foldl_add_eq_sum (fun v => st.liquidity_by_pair.get t v / st.q_by_token.getD v 0)
      (List.range st.n_tokens) 0

theorem balanceSum_eq_sum (st : Router) (u : ℕ) :
    balanceSum st u = ((List.range st.n_tokens).map
      (fun v => st.liquidity_by_pair.get u v *
        (st.q_by_token.getD u 0 / st.q_by_token.getD v 0))).sum := by
  simpa [balanceSum] using
    foldl_add_eq_sum (fun v => st.liquidity_by_pair.get u v *
      (st.q_by_token.getD u 0 / st.q_by_token.getD v 0)) (List.range st.n_tokens) 0

theorem balanceSum_eq_q_mul_denomSum (st : Router) (u : ℕ) :
    balanceSum st u = st.q_by_token.getD u 0 * denomSum st u := by
  rw [balanceSum_eq_sum, denomSum_eq_sum, ← List.sum_map_mul_left]
  refine congrArg List.sum (List.map_congr_left fun v _ => ?_)
  ring

theorem specReserveSum_eq_sum (pools : List UniV2Pool) (t : String) :
    specReserveSum pools t = (pools.map (reserveContrib t)).sum := by
  simpa [specReserveSum] using foldl_add_eq_sum (reserveContrib t) pools 0

theorem specPairLiquidity_eq_sum (pools : List UniV2Pool) (i j : ℕ) :
    specPairLiquidity pools i j = (pools.map (pairContrib (uniqueTokens pools) i j)).sum := by
  simpa [specPairLiquidity] using
    foldl_add_eq_sum (pairContrib (uniqueTokens pools) i j) pools 0

/-! ### Structural facts about sweeps and the capped loop -/

theorem sweepStep_fields (f : ℕ) (acc : Router × ℚ) (t : ℕ) :
    (sweepStep f acc t).1.n_tokens = acc.1.n_tokens ∧
    (sweepStep f acc t).1.tokens = acc.1.tokens ∧
    (sweepStep f acc t).1.reserve_by_token = acc.1.reserve_by_token ∧
    (sweepStep f acc t).1.liquidity_by_pair = acc.1.liquidity_by_pair := by
  unfold sweepStep
  split <;> exact ⟨rfl, rfl, rfl, rfl⟩

theorem foldl_sweepStep_fields (f : ℕ) (l : List ℕ) (acc : Router × ℚ) :
    (l.foldl (sweepStep f) acc).1.n_tokens = acc.1.n_tokens ∧
    (l.foldl (sweepStep f) acc).1.tokens = acc.1.tokens ∧
    (l.foldl (sweepStep f) acc).1.reserve_by_token = acc.1.reserve_by_token ∧
    (l.foldl (sweepStep f) acc).1.liquidity_by_pair = acc.1.liquidity_by_pair := by
  induction l generalizing acc with
  | nil => exact ⟨rfl, rfl, rfl, rfl⟩
  | cons t l ih =>
    have hs := sweepStep_fields f acc t
    have hi := ih (sweepStep f acc t)
    exact ⟨hi.1.trans hs.1, hi.2.1.trans hs.2.1, hi.2.2.1.trans hs.2.2.1,
      hi.2.2.2.trans hs.2.2.2⟩

theorem sweep_fields (st : Router) (f : ℕ) :
    (sweep st f).1.n_tokens = st.n_tokens ∧
    (sweep st f).1.tokens = st.tokens ∧
    (sweep st f).1.reserve_by_token = st.reserve_by_token ∧
    (sweep st f).1.liquidity_by_pair = st.liquidity_by_pair :=
  foldl_sweepStep_fields f (List.range st.n_tokens) (st, 0)

theorem equilibriumLoop_succ (fuel : ℕ) (st : Router) (f : ℕ) :
    equilibriumLoop (fuel + 1) st f =
      if (sweep st f).2 < TOLERANCE then (sweep st f).1
      else equilibriumLoop fuel (sweep st f).1 f := rfl

theorem loopSteps_succ (fuel : ℕ) (st : Router) (f : ℕ) :
    loopSteps (fuel + 1) st f =
      if (sweep st f).2 < TOLERANCE then 1
      else 1 + loopSteps fuel (sweep st f).1 f := rfl

theorem iterSweeps_zero (st : Router) (f : ℕ) : iterSweeps 0 st f = st := rfl

theorem iterSweeps_succ (fuel : ℕ) (st : Router) (f : ℕ) :
    iterSweeps (fuel + 1) st f = iterSweeps fuel (sweep st f).1 f := rfl

theorem equilibriumLoop_fields (f : ℕ) : ∀ (fuel : ℕ) (st : Router),
    (equilibriumLoop fuel st f).n_tokens = st.n_tokens ∧
    (equilibriumLoop fuel st f).tokens = st.tokens ∧
    (equilibriumLoop fuel st f).reserve_by_token = st.reserve_by_token ∧
    (equilibriumLoop fuel st f).liquidity_by_pair = st.liquidity_by_pair
  | 0, st => ⟨rfl, rfl, rfl, rfl⟩
  | fuel + 1, st => by
    rw [equilibriumLoop_succ]
    have hs := sweep_fields st f
    split
    · exact hs
    · have hi := equilibriumLoop_fields f fuel (sweep st f).1
      exact ⟨hi.1.trans hs.1, hi.2.1.trans hs.2.1, hi.2.2.1.trans hs.2.2.1,
        hi.2.2.2.trans hs.2.2.2⟩

theorem loop_of_converged {fuel : ℕ} {st st' : Router} {f : ℕ} (hfuel : 1 ≤ fuel)
    (h1 : (sweep st f).1 = st') (h2 : (sweep st f).2 < TOLERANCE) :
    equilibriumLoop fuel st f = st' := by
  obtain ⟨k, rfl⟩ : ∃ k, fuel = k + 1 := ⟨fuel - 1, by omega⟩
  rw [equilibriumLoop_succ, if_pos h2, h1]

theorem loop_two_sweeps {fuel : ℕ} {st st' : Router} {f : ℕ} (hfuel : 2 ≤ fuel)
    (h1 : (sweep st f).1 = st') (h2 : (sweep st' f).1 = st')
    (h3 : (sweep st' f).2 < TOLERANCE) :
    equilibriumLoop fuel st f = st' := by
  obtain ⟨k, rfl⟩ : ∃ k, fuel = k + 1 := ⟨fuel - 1, by omega⟩
  rw [equilibriumLoop_succ, h1]
  split
  · rfl
  · exact loop_of_converged (by omega) h2 h3

theorem equilibriumLoop_eq_iterSweeps (f : ℕ) : ∀ (fuel : ℕ) (st : Router),
    equilibriumLoop fuel st f = iterSweeps (loopSteps fuel st f) st f
  | 0, st => rfl
  | fuel + 1, st => by
    rw [equilibriumLoop_succ, loopSteps_succ]
    split
    · rfl
    · rw [equilibriumLoop_eq_iterSweeps f fuel (sweep st f).1,
        Nat.add_comm 1 (loopSteps fuel (sweep st f).1 f), iterSweeps_succ]

theorem loopSteps_le (f : ℕ) : ∀ (fuel : ℕ) (st : Router), loopSteps fuel st f ≤ fuel
  | 0, _ => Nat.le_refl 0
  | fuel + 1, st => by
    rw [loopSteps_succ]
    split
    · omega
    · have := loopSteps_le f fuel (sweep st f).1
      omega

theorem loopSteps_pos {fuel : ℕ} (hf : 1 ≤ fuel) (st : Router) (f : ℕ) :
    1 ≤ loopSteps fuel st f := by
  obtain ⟨k, rfl⟩ : ∃ k, fuel = k + 1 := ⟨fuel - 1, by omega⟩
  rw [loopSteps_succ]
  split <;> omega

theorem loopSteps_not_converged_before (f : ℕ) : ∀ (fuel : ℕ) (st : Router) (k : ℕ),
    k + 1 < loopSteps fuel st f → ¬ (sweep (iterSweeps k st f) f).2 < TOLERANCE
  | 0, st, k => by
    rw [loopSteps]
    omega
  | fuel + 1, st, k => by
    rw [loopSteps_succ]
    split
    · omega
    · rename_i hc
      intro hk
      cases k with
      | zero => simpa [iterSweeps_zero] using hc
      | succ j =>
        have hrec := loopSteps_not_converged_before f fuel (sweep st f).1 j (by omega)
        simpa [iterSweeps_succ] using hrec

theorem loopSteps_converged_last (f : ℕ) : ∀ (fuel : ℕ) (st : Router),
    loopSteps fuel st f < fuel →
    (sweep (iterSweeps (loopSteps fuel st f - 1) st f) f).2 < TOLERANCE
  | 0, st => by
    rw [loopSteps]
    omega
  | fuel + 1, st => by
    rw [loopSteps_succ]
    split
    · rename_i hc
      intro _
      simpa [iterSweeps_zero] using hc
    · rename_i hc
      intro hlt
      have hrec := loopSteps_converged_last f fuel (sweep st f).1 (by omega)
      rw [show 1 + loopSteps fuel (sweep st f).1 f - 1 =
        (loopSteps fuel (sweep st f).1 f - 1) + 1 from by
          have := loopSteps_pos (show 1 ≤ fuel by omega) (sweep st f).1 f
          omega, iterSweeps_succ]
      exact hrec

theorem normalizePricesWith_fields (st : Router) (r : ℕ) :
    (normalizePricesWith st r).n_tokens = st.n_tokens ∧
    (normalizePricesWith st r).tokens = st.tokens ∧
    (normalizePricesWith st r).reserve_by_token = st.reserve_by_token ∧
    (normalizePricesWith st r).liquidity_by_pair = st.liquidity_by_pair :=
  ⟨rfl, rfl, rfl, rfl⟩

/-! ### Fixed points of the sweep -/

theorem sweepStep_of_fixed {f : ℕ} {st : Router} (t : ℕ)
    (hfix : t ≠ f → st.reserve_by_token.getD t 0 / denomSum st t = st.q_by_token.getD t 0) :
    sweepStep f (st, 0) t = (st, 0) := by
  simp only [sweepStep]
  split
  · rfl
  · rename_i ht
    rw [hfix ht, listSet_getD_self, sub_self, abs_zero, zero_div]
    rw [if_neg (lt_irrefl (0:ℚ))]

theorem foldl_sweepStep_of_fixed {f : ℕ} {st : Router} {l : List ℕ}
    (hfix : ∀ t ∈ l, sweepStep f (st, 0) t = (st, 0)) :
    l.foldl (sweepStep f) (st, 0) = (st, 0) := by
  induction l with
  | nil => rfl
  | cons t l ih =>
    rw [List.foldl_cons, hfix t (List.mem_cons_self t l)]
    exact ih fun s hs => hfix s (List.mem_cons_of_mem t hs)

theorem sweep_of_fixed {f : ℕ} {st : Router}
    (hfix : ∀ t, t < st.n_tokens → t ≠ f →
      st.reserve_by_token.getD t 0 / denomSum st t = st.q_by_token.getD t 0) :
    sweep st f = (st, 0) := by
  unfold sweep
  exact foldl_sweepStep_of_fixed fun t ht =>
    sweepStep_of_fixed t fun htf => hfix t (List.mem_range.mp ht) htf

theorem sweep_of_equilibrium {st : Router} (f : ℕ)
    (heq : AtEquilibrium st)
    (hT : ∀ t, t < st.n_tokens → st.reserve_by_token.getD t 0 ≠ 0) :
    sweep st f = (st, 0) := by
  refine sweep_of_fixed fun t ht _ => ?_
  have hbal := heq t ht
  have hd : denomSum st t ≠ 0 := by
    intro hd0
    rw [balanceSum_eq_q_mul_denomSum, hd0, mul_zero] at hbal
    exact hT t ht hbal.symm
  rw [← hbal, balanceSum_eq_q_mul_denomSum, mul_div_assoc, div_self hd, mul_one]

theorem tolerance_pos : (0:ℚ) < TOLERANCE := by norm_num [TOLERANCE]

theorem equilibriumLoop_of_equilibrium {st : Router} (f : ℕ)
    (heq : AtEquilibrium st)
    (hT : ∀ t, t < st.n_tokens → st.reserve_by_token.getD t 0 ≠ 0) :
    equilibriumLoop MAX_ITERS st f = st := by
  have hs := sweep_of_equilibrium f heq hT
  exact loop_of_converged (by norm_num [MAX_ITERS])
    (by rw [hs]) (by rw [hs]; exact tolerance_pos)

/-! ### Renormalization invariance of the balance sums -/

theorem balanceSum_map_div (st : Router) (f : ℕ) {c : ℚ} (hc : c ≠ 0) :
    balanceSum { st with q_by_token := st.q_by_token.map (· / c) } f = balanceSum st f := by
  rw [balanceSum_eq_sum, balanceSum_eq_sum]
  refine congrArg List.sum (List.map_congr_left fun v _ => ?_)
  dsimp only
  rw [getD_map_div, getD_map_div, div_div_div_cancel_of_ne hc]

theorem balanceSum_normalizePricesWith (st : Router) (f r : ℕ)
    (hr : st.q_by_token.getD r 0 ≠ 0) :
    balanceSum (normalizePricesWith st r) f = balanceSum st f := by
  unfold normalizePricesWith
  exact balanceSum_map_div st f hr

/-! ### Concrete square roots -/

theorem fsqrt_natCast_sq (b : ℕ) : fsqrt ((b * b : ℕ) : ℚ) = b := by
  rw [fsqrt]
  have hnum : ((b * b : ℕ) : ℚ).num = ((b * b : ℕ) : ℤ) := Rat.num_natCast _
  have hden : ((b * b : ℕ) : ℚ).den = 1 := Rat.den_natCast _
  rw [hnum, hden]
  rw [if_pos]
  · simp only [Int.toNat_natCast, Nat.sqrt_eq, Nat.sqrt_one]
    simp
  · refine ⟨by positivity, ?_, by simp⟩
    simp only [Int.toNat_natCast, Nat.sqrt_eq]
    push_cast
    ring

theorem fsqrt_400 : fsqrt 400 = 20 := by
  have h := fsqrt_natCast_sq 20
  norm_num at h
  exact h

theorem fsqrt_900 : fsqrt 900 = 30 := by
  have h := fsqrt_natCast_sq 30
  norm_num at h
  exact h

theorem fsqrt_zero : fsqrt 0 = 0 := by
  have h := fsqrt_natCast_sq 0
  norm_num at h
  exact h

/-! ### Aggregation invariants of graph construction -/

theorem listGetD_replicate {α : Type} (n m : ℕ) (d : α) :
    (List.replicate n d).getD m d = d := by
  rw [List.getD_eq_getElem?_getD, List.getElem?_replicate]
  split <;> rfl

theorem buildStep_reserve_length {tokens : List String} (res : List ℚ)
    (liq : PairwiseLiquidities) (p : UniV2Pool) :
    (buildStep tokens (res, liq) p).1.length = res.length := by
  simp [buildStep]

theorem buildStep_reserve_getD {tokens : List String} (res : List ℚ)
    (liq : PairwiseLiquidities) (p : UniV2Pool) {t : String} {i : ℕ}
    (hti : idxOf? t tokens = some i)
    (h0 : p.token0 ∈ tokens) (h1 : p.token1 ∈ tokens)
    (hlen : res.length = tokens.length) :
    (buildStep tokens (res, liq) p).1.getD i 0 = res.getD i 0 + reserveContrib t p := by
  obtain ⟨i0, hi0⟩ := idxOf?_isSome_of_mem h0
  obtain ⟨i1, hi1⟩ := idxOf?_isSome_of_mem h1
  have hi0len : i0 < res.length := hlen ▸ idxOf?_lt_length hi0
  have hilen : i < res.length := hlen ▸ idxOf?_lt_length hti
  simp only [buildStep, hi0, hi1, Option.getD_some]
  rw [reserveContrib]
  by_cases h0t : p.token0 = t
  · have hi0i : i0 = i := by
      rw [h0t] at hi0
      exact Option.some.inj (hi0.symm.trans hti)
    subst hi0i
    by_cases h1t : p.token1 = t
    · have hi1i : i1 = i0 := by
        rw [h1t] at hi1
        exact Option.some.inj (hi1.symm.trans hti)
      subst hi1i
      rw [listGetD_set_self _ _ _ _ (by simpa using hi0len),
        listGetD_set_self _ _ _ _ hi0len, if_pos h0t, if_pos h1t]
      ring
    · have hi1i : i1 ≠ i0 := fun he => h1t (idxOf?_inj (he ▸ hi1) hti)
      rw [listGetD_set_ne _ hi1i, listGetD_set_self _ _ _ _ hi0len,
        if_pos h0t, if_neg h1t]
      ring
  · have hi0i : i0 ≠ i := fun he => h0t (idxOf?_inj (he ▸ hi0) hti)
    by_cases h1t : p.token1 = t
    · have hi1i : i1 = i := by
        rw [h1t] at hi1
        exact Option.some.inj (hi1.symm.trans hti)
      subst hi1i
      rw [listGetD_set_self _ _ _ _ (by simpa using hilen),
        listGetD_set_ne _ hi0i, if_neg h0t, if_pos h1t]
      ring
    · have hi1i : i1 ≠ i := fun he => h1t (idxOf?_inj (he ▸ hi1) hti)
      rw [listGetD_set_ne _ hi1i, listGetD_set_ne _ hi0i, if_neg h0t, if_neg h1t]
      ring

theorem foldl_buildStep_reserve {tokens : List String} {t : String} {i : ℕ}
    (hti : idxOf? t tokens = some i) :
    ∀ (ps : List UniV2Pool) (res : List ℚ) (liq : PairwiseLiquidities),
    (∀ p ∈ ps, p.token0 ∈ tokens ∧ p.token1 ∈ tokens) →
    res.length = tokens.length →
    (ps.foldl (buildStep tokens) (res, liq)).1.getD i 0
      = res.getD i 0 + (ps.map (reserveContrib t)).sum
  | [], res, liq, _, _ => by simp
  | p :: ps, res, liq, hmem, hlen => by
    rw [List.foldl_cons]
    have hp := hmem p (List.mem_cons_self p ps)
    have hsteplen : (buildStep tokens (res, liq) p).1.length = tokens.length :=
      (buildStep_reserve_length res liq p).trans hlen
    have hrec := foldl_buildStep_reserve hti ps (buildStep tokens (res, liq) p).1
      (buildStep tokens (res, liq) p).2
      (fun q hq => hmem q (List.mem_cons_of_mem p hq)) hsteplen
    calc (List.foldl (buildStep tokens) (buildStep tokens (res, liq) p) ps).1.getD i 0
        = (buildStep tokens (res, liq) p).1.getD i 0 + (ps.map (reserveContrib t)).sum :=
          hrec
      _ = res.getD i 0 + ((p :: ps).map (reserveContrib t)).sum := by
          rw [buildStep_reserve_getD res liq p hti hp.1 hp.2 hlen, List.map_cons,
            List.sum_cons]
          ring

theorem router_new_reserve {pools : List UniV2Pool} {t : String} {i : ℕ}
    (hti : idxOf? t (uniqueTokens pools) = some i) :
    (Router.new pools).reserve_by_token.getD i 0 = specReserveSum pools t := by
  rw [specReserveSum_eq_sum]
  have h := foldl_buildStep_reserve hti pools
    (List.replicate (uniqueTokens pools).length 0)
    (PairwiseLiquidities.with_size (uniqueTokens pools).length)
    (fun p hp => ⟨token0_mem_uniqueTokens hp, token1_mem_uniqueTokens hp⟩)
    (by simp)
  rw [listGetD_replicate] at h
  rw [show (Router.new pools).reserve_by_token =
    (pools.foldl (buildStep (uniqueTokens pools))
      (List.replicate (uniqueTokens pools).length 0,
        PairwiseLiquidities.with_size (uniqueTokens pools).length)).1 from rfl, h, zero_add]

theorem pairLinks_iff_canonIndex {tokens : List String} {p : UniV2Pool} {i j i0 i1 : ℕ}
    (hi0 : idxOf? p.token0 tokens = some i0) (hi1 : idxOf? p.token1 tokens = some i1) :
    poolLinksPair tokens i j p ↔ canonIndex i0 i1 = canonIndex i j := by
  rw [canonIndex_eq_iff, poolLinksPair, hi0, hi1]
  simp only [Option.some.injEq]

theorem buildStep_liq_get {tokens : List String} (res : List ℚ)
    (liq : PairwiseLiquidities) (p : UniV2Pool) (i j : ℕ)
    (h0 : p.token0 ∈ tokens) (h1 : p.token1 ∈ tokens)
    (hsq : liq.SquareOf tokens.length) :
    (buildStep tokens (res, liq) p).2.get i j = liq.get i j + pairContrib tokens i j p := by
  obtain ⟨i0, hi0⟩ := idxOf?_isSome_of_mem h0
  obtain ⟨i1, hi1⟩ := idxOf?_isSome_of_mem h1
  simp only [buildStep, hi0, hi1, Option.getD_some]
  rw [get_addAt hsq (idxOf?_lt_length hi0) (idxOf?_lt_length hi1), pairContrib]
  rw [if_congr (pairLinks_iff_canonIndex hi0 hi1).symm rfl rfl]

theorem buildStep_liq_squareOf {tokens : List String} (res : List ℚ)
    (liq : PairwiseLiquidities) (p : UniV2Pool)
    (hsq : liq.SquareOf tokens.length) :
    (buildStep tokens (res, liq) p).2.SquareOf tokens.length :=
  addAt_squareOf hsq _ _ _

theorem foldl_buildStep_liq {tokens : List String} (i j : ℕ) :
    ∀ (ps : List UniV2Pool) (res : List ℚ) (liq : PairwiseLiquidities),
    (∀ p ∈ ps, p.token0 ∈ tokens ∧ p.token1 ∈ tokens) →
    liq.SquareOf tokens.length →
    (ps.foldl (buildStep tokens) (res, liq)).2.get i j
      = liq.get i j + (ps.map (pairContrib tokens i j)).sum
  | [], res, liq, _, _ => by simp
  | p :: ps, res, liq, hmem, hsq => by
    rw [List.foldl_cons]
    have hp := hmem p (List.mem_cons_self p ps)
    have hrec := foldl_buildStep_liq i j ps (buildStep tokens (res, liq) p).1
      (buildStep tokens (res, liq) p).2
      (fun q hq => hmem q (List.mem_cons_of_mem p hq))
      (buildStep_liq_squareOf res liq p hsq)
    calc (List.foldl (buildStep tokens) (buildStep tokens (res, liq) p) ps).2.get i j
        = (buildStep tokens (res, liq) p).2.get i j
            + (ps.map (pairContrib tokens i j)).sum := hrec
      _ = liq.get i j + ((p :: ps).map (pairContrib tokens i j)).sum := by
          rw [buildStep_liq_get res liq p i j hp.1 hp.2 hsq, List.map_cons, List.sum_cons]
          ring

theorem router_new_liq (pools : List UniV2Pool) (i j : ℕ) :
    (Router.new pools).liquidity_by_pair.get i j = specPairLiquidity pools i j := by
  rw [specPairLiquidity_eq_sum]
  have h := foldl_buildStep_liq i j pools
    (List.replicate (uniqueTokens pools).length 0)
    (PairwiseLiquidities.with_size (uniqueTokens pools).length)
    (fun p hp => ⟨token0_mem_uniqueTokens hp, token1_mem_uniqueTokens hp⟩)
    (with_size_squareOf _)
  rw [get_with_size, zero_add] at h
  rw [show (Router.new pools).liquidity_by_pair =
    (pools.foldl (buildStep (uniqueTokens pools))
      (List.replicate (uniqueTokens pools).length 0,
        PairwiseLiquidities.with_size (uniqueTokens pools).length)).2 from rfl, h]

/-! ### Evaluation helpers for concrete scenarios -/

theorem range_two : List.range 2 = [0, 1] := by decide

theorem get_pair_00 (a b c d : ℚ) :
    (⟨[[a,b],[c,d]]⟩ : PairwiseLiquidities).get 0 0 = a := by
  simp [PairwiseLiquidities.get, canonIndex, List.getD]

theorem get_pair_01 (a b c d : ℚ) :
    (⟨[[a,b],[c,d]]⟩ : PairwiseLiquidities).get 0 1 = b := by
  simp [PairwiseLiquidities.get, canonIndex, List.getD]

theorem get_pair_10 (a b c d : ℚ) :
    (⟨[[a,b],[c,d]]⟩ : PairwiseLiquidities).get 1 0 = b := by
  simp [PairwiseLiquidities.get, canonIndex, List.getD]

theorem get_pair_11 (a b c d : ℚ) :
    (⟨[[a,b],[c,d]]⟩ : PairwiseLiquidities).get 1 1 = d := by
  simp [PairwiseLiquidities.get, canonIndex, List.getD]
  try rfl

theorem solve_eq_of_lookup {st : Router} {u f : String} {i j : ℕ} (x : ℚ)
    (hu : idxOf? u st.tokens = some i) (hf : idxOf? f st.tokens = some j) :
    st.solve u f x = .ok (Router.no_arbitrage_equilibrium
      { st with reserve_by_token :=
          st.reserve_by_token.set i (st.reserve_by_token.getD i 0 + x) } j) := by
  simp only [Router.solve, hu, hf]

theorem no_arbitrage_eq (st : Router) (f : ℕ) :
    st.no_arbitrage_equilibrium f =
      ((equilibriumLoop MAX_ITERS st f).normalize_prices.reserve_by_token.getD f 0
        - balanceSum (equilibriumLoop MAX_ITERS st f).normalize_prices f,
       { (equilibriumLoop MAX_ITERS st f).normalize_prices with
         reserve_by_token :=
           (equilibriumLoop MAX_ITERS st f).normalize_prices.reserve_by_token.set f
             (balanceSum (equilibriumLoop MAX_ITERS st f).normalize_prices f) }) := rfl

theorem normalize_prices_eq (st : Router) :
    st.normalize_prices =
      { st with q_by_token := st.q_by_token.map (· / st.q_by_token.getD 0 0) } := rfl

theorem normalize_prices_reserve (st : Router) :
    st.normalize_prices.reserve_by_token = st.reserve_by_token := rfl

/-! ### The claims -/

/-- Claim C10: when either token name of a `solve` call is absent from the
token index, the call fails on the name lookup before any state mutation:
both lookups precede the input-reserve increment, so the state carried at
the failure (the `Except.error` payload) is exactly the router before the
call — in particular also when the input name is known but the output name
is unknown. -/
theorem solve_unknown_name_fails_without_mutation (st : Router) (u f : String) (x : ℚ)
    (h : idxOf? u st.tokens = none ∨ idxOf? f st.tokens = none) :
    st.solve u f x = .error st := by
  rcases h with h | h
  · simp only [Router.solve, h]
  · rcases hm : idxOf? u st.tokens with _ | i
    · simp only [Router.solve, hm]
    · simp only [Router.solve, hm, h]

/-- Witness for C10 at a concrete router: the input name is known, the
output name `"Z"` is unknown, and the call returns the untouched state. -/
theorem solve_unknown_name_fails_without_mutation_witness :
    (idxOf? "A" ((⟨2, ["A","B"], [10,40], [1,1],
        ⟨[[0,20],[0,0]]⟩⟩ : Router)).tokens = some 0 ∧
      idxOf? "Z" ((⟨2, ["A","B"], [10,40], [1,1],
        ⟨[[0,20],[0,0]]⟩⟩ : Router)).tokens = none) ∧
    (⟨2, ["A","B"], [10,40], [1,1], ⟨[[0,20],[0,0]]⟩⟩ : Router).solve "A" "Z" 5
      = .error (⟨2, ["A","B"], [10,40], [1,1], ⟨[[0,20],[0,0]]⟩⟩ : Router) :=
  ⟨⟨by decide, by decide⟩,
    solve_unknown_name_fails_without_mutation _ "A" "Z" 5 (Or.inr (by decide))⟩

/-- Claim C4: across any successful trade between distinct tokens `u` and `f`,
the total reserve of every token other than `u` and `f` is unchanged: the
sweeps only write prices, and the only reserve writes are the input
increment at `u` and the output overwrite at `f`. -/
theorem solve_frame_untouched_reserves (st : Router) (u f : String) (x : ℚ) (i j t : ℕ)
    (hu : idxOf? u st.tokens = some i) (hf : idxOf? f st.tokens = some j)
    (_hij : i ≠ j) (hti : t ≠ i) (htj : t ≠ j) :
    (solveState st u f x).reserve_by_token.getD t 0 = st.reserve_by_token.getD t 0 := by
  simp only [solveState, solve_eq_of_lookup x hu hf, no_arbitrage_eq]
  rw [listGetD_set_ne _ (Ne.symm htj), normalize_prices_reserve,
    (equilibriumLoop_fields j MAX_ITERS _).2.2.1]
  show (st.reserve_by_token.set i (st.reserve_by_token.getD i 0 + x)).getD t 0
    = st.reserve_by_token.getD t 0
  exact listGetD_set_ne _ (Ne.symm hti) _ _

/-- Witness for C4: a three-token graph (pools A-B and B-C), trading A for
B; token C (index 2) keeps its total reserve. -/
theorem solve_frame_untouched_reserves_witness :
    (idxOf? "A" ((⟨3, ["A","B","C"], [10,130,10], [1,1,1],
        ⟨[[0,20,0],[0,0,30],[0,0,0]]⟩⟩ : Router)).tokens = some 0 ∧
      idxOf? "B" ((⟨3, ["A","B","C"], [10,130,10], [1,1,1],
        ⟨[[0,20,0],[0,0,30],[0,0,0]]⟩⟩ : Router)).tokens = some 1 ∧
      (0 : ℕ) ≠ 1 ∧ (2 : ℕ) ≠ 0 ∧ (2 : ℕ) ≠ 1) ∧
    (solveState (⟨3, ["A","B","C"], [10,130,10], [1,1,1],
        ⟨[[0,20,0],[0,0,30],[0,0,0]]⟩⟩ : Router) "A" "B" 5).reserve_by_token.getD 2 0
      = (⟨3, ["A","B","C"], [10,130,10], [1,1,1],
        ⟨[[0,20,0],[0,0,30],[0,0,0]]⟩⟩ : Router).reserve_by_token.getD 2 0 :=
  ⟨⟨by decide, by decide, by decide, by decide, by decide⟩,
    solve_frame_untouched_reserves _ "A" "B" 5 0 1 2 (by decide) (by decide)
      (by decide) (by decide) (by decide)⟩

/-- Claim C7: the extracted amount depends only on price ratios, so it is
invariant under the choice of renormalization reference: renormalizing by
any token `r` with nonzero price gives the same
`reserve[f] - Σ K(f,v)·q_f/q_v` as the source's renormalization by token
0. -/
theorem extraction_gauge_invariant (st : Router) (f r : ℕ)
    (h0 : st.q_by_token.getD 0 0 ≠ 0) (hr : st.q_by_token.getD r 0 ≠ 0) :
    (normalizePricesWith st r).reserve_by_token.getD f 0
        - balanceSum (normalizePricesWith st r) f
      = st.normalize_prices.reserve_by_token.getD f 0
        - balanceSum st.normalize_prices f := by
  rw [balanceSum_normalizePricesWith st f r hr,
    show st.normalize_prices = normalizePricesWith st 0 from rfl,
    balanceSum_normalizePricesWith st f 0 h0]
  rfl

/-- Witness for C7 at a concrete router with prices `[2, 4]`, reference
token 1. -/
theorem extraction_gauge_invariant_witness :
    ((⟨2, ["A","B"], [10,40], [2,4], ⟨[[0,20],[0,0]]⟩⟩ : Router).q_by_token.getD 0 0 ≠ 0 ∧
      (⟨2, ["A","B"], [10,40], [2,4], ⟨[[0,20],[0,0]]⟩⟩ : Router).q_by_token.getD 1 0 ≠ 0) ∧
    (normalizePricesWith (⟨2, ["A","B"], [10,40], [2,4],
          ⟨[[0,20],[0,0]]⟩⟩ : Router) 1).reserve_by_token.getD 1 0
        - balanceSum (normalizePricesWith (⟨2, ["A","B"], [10,40], [2,4],
          ⟨[[0,20],[0,0]]⟩⟩ : Router) 1) 1
      = (⟨2, ["A","B"], [10,40], [2,4],
          ⟨[[0,20],[0,0]]⟩⟩ : Router).normalize_prices.reserve_by_token.getD 1 0
        - balanceSum (⟨2, ["A","B"], [10,40], [2,4],
          ⟨[[0,20],[0,0]]⟩⟩ : Router).normalize_prices 1 :=
  ⟨⟨by norm_num [List.getD], by norm_num [List.getD]⟩,
    extraction_gauge_invariant _ 1 1 (by norm_num [List.getD]) (by norm_num [List.getD])⟩

/-- Claim C8: the equilibrium solver performs at most `MAX_ITERS = 20000`
sweeps; its result is exactly the state after `loopSteps` unconditional
sweeps (a best-effort result, returned without any error path); it never
stops while the maximal relative change of a sweep is still at least
`TOLERANCE = 1e-12`; and whenever it stops before exhausting the cap, the
final sweep's maximal relative change was below the tolerance. -/
theorem solver_terminates_within_cap (st : Router) (f : ℕ) :
    equilibriumLoop MAX_ITERS st f = iterSweeps (loopSteps MAX_ITERS st f) st f ∧
    loopSteps MAX_ITERS st f ≤ MAX_ITERS ∧
    (∀ k, k + 1 < loopSteps MAX_ITERS st f →
      ¬ (sweep (iterSweeps k st f) f).2 < TOLERANCE) ∧
    (loopSteps MAX_ITERS st f < MAX_ITERS →
      (sweep (iterSweeps (loopSteps MAX_ITERS st f - 1) st f) f).2 < TOLERANCE) :=
  ⟨equilibriumLoop_eq_iterSweeps f MAX_ITERS st, loopSteps_le f MAX_ITERS st,
    fun k hk => loopSteps_not_converged_before f MAX_ITERS st k hk,
    fun h => loopSteps_converged_last f MAX_ITERS st h⟩

/-- Claim C6: after construction, every token's total reserve is the sum of
its reserves over all pools containing it on either side; the pair table is
symmetric and holds `Σ √(r0·r1)` over the pools linking each pair,
independently of orientation; and every price is initialized to 1. -/
theorem construction_aggregation_invariants (pools : List UniV2Pool) :
    (∀ t i, idxOf? t (uniqueTokens pools) = some i →
      (Router.new pools).reserve_by_token.getD i 0 = specReserveSum pools t) ∧
    (∀ i j, (Router.new pools).liquidity_by_pair.get i j
      = (Router.new pools).liquidity_by_pair.get j i) ∧
    (∀ i j, i ≠ j →
      (Router.new pools).liquidity_by_pair.get i j = specPairLiquidity pools i j) ∧
    (Router.new pools).q_by_token = List.replicate (Router.new pools).n_tokens 1 :=
  ⟨fun _ _ hti => router_new_reserve hti,
    fun i j => PairwiseLiquidities.get_comm _ i j,
    fun i j _ => router_new_liq pools i j,
    rfl⟩

/-- Witness for C6 on two A-B pools stored in opposite orientations. -/
theorem construction_aggregation_invariants_witness :
    (idxOf? "A" (uniqueTokens [⟨"A","B",10,40⟩, ⟨"B","A",90,10⟩]) = some 0 ∧
      (Router.new [⟨"A","B",10,40⟩, ⟨"B","A",90,10⟩]).reserve_by_token.getD 0 0
        = specReserveSum [⟨"A","B",10,40⟩, ⟨"B","A",90,10⟩] "A") ∧
    ((0 : ℕ) ≠ 1 ∧
      (Router.new [⟨"A","B",10,40⟩, ⟨"B","A",90,10⟩]).liquidity_by_pair.get 0 1
        = specPairLiquidity [⟨"A","B",10,40⟩, ⟨"B","A",90,10⟩] 0 1) :=
  ⟨⟨by decide, (construction_aggregation_invariants _).1 "A" 0 (by decide)⟩,
    ⟨by decide, (construction_aggregation_invariants _).2.2.1 0 1 (by decide)⟩⟩

/-- Witness for C8: on a concrete two-pool router the solver stops after
exactly 2 sweeps — the first sweep's change `1/4` is not below tolerance,
the second sweep's change is. -/
theorem solver_terminates_within_cap_witness :
    ((0 : ℕ) + 1 < loopSteps MAX_ITERS
        (⟨2, ["A","B"], [50,50], [1,1], ⟨[[0,40],[0,0]]⟩⟩ : Router) 1 ∧
      ¬ (sweep (iterSweeps 0
        (⟨2, ["A","B"], [50,50], [1,1], ⟨[[0,40],[0,0]]⟩⟩ : Router) 1) 1).2 < TOLERANCE) ∧
    (loopSteps MAX_ITERS
        (⟨2, ["A","B"], [50,50], [1,1], ⟨[[0,40],[0,0]]⟩⟩ : Router) 1 < MAX_ITERS ∧
      (sweep (iterSweeps (loopSteps MAX_ITERS
          (⟨2, ["A","B"], [50,50], [1,1], ⟨[[0,40],[0,0]]⟩⟩ : Router) 1 - 1)
        (⟨2, ["A","B"], [50,50], [1,1], ⟨[[0,40],[0,0]]⟩⟩ : Router) 1) 1).2 < TOLERANCE) := by
  have hsweep1 : sweep (⟨2, ["A","B"], [50,50], [1,1], ⟨[[0,40],[0,0]]⟩⟩ : Router) 1 =
      ((⟨2, ["A","B"], [50,50], [5/4,1], ⟨[[0,40],[0,0]]⟩⟩ : Router), 1/4) := by
    simp only [sweep, range_two, List.foldl_cons, List.foldl_nil, sweepStep, denomSum,
      get_pair_00, get_pair_01, get_pair_10, get_pair_11]
    norm_num
  have hsweep2 : sweep (⟨2, ["A","B"], [50,50], [5/4,1], ⟨[[0,40],[0,0]]⟩⟩ : Router) 1 =
      ((⟨2, ["A","B"], [50,50], [5/4,1], ⟨[[0,40],[0,0]]⟩⟩ : Router), 0) := by
    simp only [sweep, range_two, List.foldl_cons, List.foldl_nil, sweepStep, denomSum,
      get_pair_00, get_pair_01, get_pair_10, get_pair_11]
    norm_num
  have hsteps : loopSteps MAX_ITERS
      (⟨2, ["A","B"], [50,50], [1,1], ⟨[[0,40],[0,0]]⟩⟩ : Router) 1 = 2 := by
    rw [show MAX_ITERS = 19999 + 1 from by norm_num [MAX_ITERS], loopSteps_succ, hsweep1]
    rw [if_neg (by norm_num [TOLERANCE])]
    rw [show (19999 : ℕ) = 19998 + 1 from by norm_num, loopSteps_succ, hsweep2]
    rw [if_pos (by exact tolerance_pos)]
  have h := solver_terminates_within_cap
    (⟨2, ["A","B"], [50,50], [1,1], ⟨[[0,40],[0,0]]⟩⟩ : Router) 1
  refine ⟨⟨by rw [hsteps]; norm_num, h.2.2.1 0 (by rw [hsteps]; norm_num)⟩,
    ⟨by rw [hsteps]; norm_num [MAX_ITERS], h.2.2.2 (by rw [hsteps]; norm_num [MAX_ITERS])⟩⟩

/-- Claim C5: two identical A-B pools with reserves (10, 40) each aggregate to
total reserves (20, 80) and liquidity 40; selling 20 A for B returns
exactly 40 B, as one pool with the summed reserves would. -/
theorem aggregated_duplicate_pools_trade :
    solveOut (Router.new [⟨"A","B",10,40⟩, ⟨"A","B",10,40⟩]) "A" "B" 20 = some 40 := by
  have h400 : ((10:ℚ) * 40) = 400 := by norm_num
  have hBA : ("B":String) ≠ "A" := by decide
  have hAB : ("A":String) ≠ "B" := by decide
  have hnew : Router.new [⟨"A","B",10,40⟩, ⟨"A","B",10,40⟩] =
      (⟨2, ["A","B"], [20,80], [1,1], ⟨[[0,40],[0,0]]⟩⟩ : Router) := by
    simp only [Router.new, uniqueTokens, uniqueAux, List.flatMap_cons, List.flatMap_nil,
      List.mem_cons, List.mem_singleton, List.not_mem_nil, List.append_nil,
      List.foldl_cons, List.foldl_nil, buildStep, idxOf?,
      PairwiseLiquidities.with_size, PairwiseLiquidities.addAt, canonIndex, h400, fsqrt_400,
      hBA, hAB, if_true, if_false]
    norm_num [List.replicate, List.set]
  rw [hnew]
  have hu : idxOf? "A" ((⟨2, ["A","B"], [20,80], [1,1], ⟨[[0,40],[0,0]]⟩⟩ : Router)).tokens
      = some 0 := by decide
  have hf : idxOf? "B" ((⟨2, ["A","B"], [20,80], [1,1], ⟨[[0,40],[0,0]]⟩⟩ : Router)).tokens
      = some 1 := by decide
  have hbump : ({(⟨2, ["A","B"], [20,80], [1,1], ⟨[[0,40],[0,0]]⟩⟩ : Router) with
      reserve_by_token := ([20,80] : List ℚ).set 0 (([20,80] : List ℚ).getD 0 0 + 20) })
      = (⟨2, ["A","B"], [40,80], [1,1], ⟨[[0,40],[0,0]]⟩⟩ : Router) := by
    norm_num
  have hsweep : sweep (⟨2, ["A","B"], [40,80], [1,1], ⟨[[0,40],[0,0]]⟩⟩ : Router) 1 =
      ((⟨2, ["A","B"], [40,80], [1,1], ⟨[[0,40],[0,0]]⟩⟩ : Router), 0) := by
    simp only [sweep, range_two, List.foldl_cons, List.foldl_nil, sweepStep, denomSum,
      get_pair_00, get_pair_01, get_pair_10, get_pair_11]
    norm_num
  have hloop : equilibriumLoop MAX_ITERS
      (⟨2, ["A","B"], [40,80], [1,1], ⟨[[0,40],[0,0]]⟩⟩ : Router) 1 =
      (⟨2, ["A","B"], [40,80], [1,1], ⟨[[0,40],[0,0]]⟩⟩ : Router) :=
    loop_of_converged (by norm_num [MAX_ITERS]) (by rw [hsweep])
      (by rw [hsweep]; exact tolerance_pos)
  have hnorm : Router.normalize_prices
      (⟨2, ["A","B"], [40,80], [1,1], ⟨[[0,40],[0,0]]⟩⟩ : Router)
      = (⟨2, ["A","B"], [40,80], [1,1], ⟨[[0,40],[0,0]]⟩⟩ : Router) := by
    rw [normalize_prices_eq]
    norm_num
  have hbal : balanceSum
      (⟨2, ["A","B"], [40,80], [1,1], ⟨[[0,40],[0,0]]⟩⟩ : Router) 1 = 40 := by
    simp only [balanceSum, range_two, List.foldl_cons, List.foldl_nil,
      get_pair_10, get_pair_11]
    norm_num
  simp only [solveOut, solve_eq_of_lookup 20 hu hf, hbump, no_arbitrage_eq, hloop, hnorm,
    hbal]
  norm_num

/-- Counterexample to C2 as stated: on the freshly constructed graph from
two A-B pools with reserves (10,40) and (40,10) — which is not at
equilibrium — a zero-amount trade extracts 18 B (the arbitrage present in
the initial prices) and rewrites B's total reserve from 50 to 32. -/
theorem zero_trade_not_idempotent_counterexample :
    solveOut (Router.new [⟨"A","B",10,40⟩, ⟨"A","B",40,10⟩]) "A" "B" 0 = some 18 ∧
    ¬ |(18:ℚ) - 0| ≤ TOLERANCE ∧
    (Router.new [⟨"A","B",10,40⟩, ⟨"A","B",40,10⟩]).reserve_by_token = [50, 50] ∧
    (solveState (Router.new [⟨"A","B",10,40⟩, ⟨"A","B",40,10⟩]) "A" "B" 0).reserve_by_token
      = [50, 32] := by
  have h400a : ((10:ℚ) * 40) = 400 := by norm_num
  have h400b : ((40:ℚ) * 10) = 400 := by norm_num
  have hBA : ("B":String) ≠ "A" := by decide
  have hAB : ("A":String) ≠ "B" := by decide
  have hnew : Router.new [⟨"A","B",10,40⟩, ⟨"A","B",40,10⟩] =
      (⟨2, ["A","B"], [50,50], [1,1], ⟨[[0,40],[0,0]]⟩⟩ : Router) := by
    simp only [Router.new, uniqueTokens, uniqueAux, List.flatMap_cons, List.flatMap_nil,
      List.mem_cons, List.mem_singleton, List.not_mem_nil, List.append_nil,
      List.foldl_cons, List.foldl_nil, buildStep, idxOf?,
      PairwiseLiquidities.with_size, PairwiseLiquidities.addAt, canonIndex,
      h400a, h400b, fsqrt_400, hBA, hAB, if_true, if_false]
    norm_num [List.replicate, List.set]
  rw [hnew]
  have hu : idxOf? "A" ((⟨2, ["A","B"], [50,50], [1,1], ⟨[[0,40],[0,0]]⟩⟩ : Router)).tokens
      = some 0 := by decide
  have hf : idxOf? "B" ((⟨2, ["A","B"], [50,50], [1,1], ⟨[[0,40],[0,0]]⟩⟩ : Router)).tokens
      = some 1 := by decide
  have hbump : ({(⟨2, ["A","B"], [50,50], [1,1], ⟨[[0,40],[0,0]]⟩⟩ : Router) with
      reserve_by_token := ([50,50] : List ℚ).set 0 (([50,50] : List ℚ).getD 0 0 + 0) })
      = (⟨2, ["A","B"], [50,50], [1,1], ⟨[[0,40],[0,0]]⟩⟩ : Router) := by
    norm_num
  have hsweep1 : sweep (⟨2, ["A","B"], [50,50], [1,1], ⟨[[0,40],[0,0]]⟩⟩ : Router) 1 =
      ((⟨2, ["A","B"], [50,50], [5/4,1], ⟨[[0,40],[0,0]]⟩⟩ : Router), 1/4) := by
    simp only [sweep, range_two, List.foldl_cons, List.foldl_nil, sweepStep, denomSum,
      get_pair_00, get_pair_01, get_pair_10, get_pair_11]
    norm_num
  have hsweep2 : sweep (⟨2, ["A","B"], [50,50], [5/4,1], ⟨[[0,40],[0,0]]⟩⟩ : Router) 1 =
      ((⟨2, ["A","B"], [50,50], [5/4,1], ⟨[[0,40],[0,0]]⟩⟩ : Router), 0) := by
    simp only [sweep, range_two, List.foldl_cons, List.foldl_nil, sweepStep, denomSum,
      get_pair_00, get_pair_01, get_pair_10, get_pair_11]
    norm_num
  have hloop : equilibriumLoop MAX_ITERS
      (⟨2, ["A","B"], [50,50], [1,1], ⟨[[0,40],[0,0]]⟩⟩ : Router) 1 =
      (⟨2, ["A","B"], [50,50], [5/4,1], ⟨[[0,40],[0,0]]⟩⟩ : Router) :=
    loop_two_sweeps (by norm_num [MAX_ITERS]) (by rw [hsweep1]) (by rw [hsweep2])
      (by rw [hsweep2]; exact tolerance_pos)
  have hnorm : Router.normalize_prices
      (⟨2, ["A","B"], [50,50], [5/4,1], ⟨[[0,40],[0,0]]⟩⟩ : Router)
      = (⟨2, ["A","B"], [50,50], [1,4/5], ⟨[[0,40],[0,0]]⟩⟩ : Router) := by
    rw [normalize_prices_eq]
    norm_num
  have hbal : balanceSum
      (⟨2, ["A","B"], [50,50], [1,4/5], ⟨[[0,40],[0,0]]⟩⟩ : Router) 1 = 32 := by
    simp only [balanceSum, range_two, List.foldl_cons, List.foldl_nil,
      get_pair_10, get_pair_11]
    norm_num
  refine ⟨?_, by norm_num [TOLERANCE], by norm_num, ?_⟩
  · simp only [solveOut, solve_eq_of_lookup 0 hu hf, hbump, no_arbitrage_eq, hloop, hnorm,
      hbal]
    norm_num
  · simp only [solveState, solve_eq_of_lookup 0 hu hf, hbump, no_arbitrage_eq, hloop, hnorm,
      hbal]
    norm_num [List.set]

/-- C2 as amended: a zero-amount trade is idempotent **when the router is at
a no-arbitrage equilibrium** (the balance law holds for every token,
including the output token): it returns exactly 0 and leaves the whole
reserve vector unchanged.  The counterexample above shows the equilibrium
hypothesis is necessary. -/
theorem zero_trade_idempotent_at_equilibrium (st : Router) (u f : String) (i j : ℕ)
    (hu : idxOf? u st.tokens = some i) (hf : idxOf? f st.tokens = some j)
    (_hij : i ≠ j) (hjn : j < st.n_tokens)
    (heq : AtEquilibrium st)
    (hq0 : st.q_by_token.getD 0 0 ≠ 0)
    (hT : ∀ t, t < st.n_tokens → st.reserve_by_token.getD t 0 ≠ 0) :
    solveOut st u f 0 = some 0 ∧
    (solveState st u f 0).reserve_by_token = st.reserve_by_token := by
  have hbump : ({st with reserve_by_token :=
      st.reserve_by_token.set i (st.reserve_by_token.getD i 0 + 0)}) = st := by
    rw [add_zero, listSet_getD_self]
  have hloop := equilibriumLoop_of_equilibrium j heq hT
  have hbalj : balanceSum st.normalize_prices j = st.reserve_by_token.getD j 0 := by
    rw [show st.normalize_prices = normalizePricesWith st 0 from rfl,
      balanceSum_normalizePricesWith st j 0 hq0]
    exact heq j hjn
  have hnb : st.no_arbitrage_equilibrium j = (0, st.normalize_prices) := by
    rw [no_arbitrage_eq, hloop, normalize_prices_reserve, hbalj, sub_self,
      listSet_getD_self]
    rfl
  constructor
  · simp only [solveOut, solve_eq_of_lookup 0 hu hf, hbump, hnb]
  · simp only [solveState, solve_eq_of_lookup 0 hu hf, hbump, hnb]
    exact normalize_prices_reserve st

/-- Witness for the amended C2: a single-pool A-B router with the
equilibrium prices `[1, 2]`; a zero trade returns 0 and leaves the
reserves `[10, 40]` unchanged. -/
theorem zero_trade_idempotent_at_equilibrium_witness :
    AtEquilibrium (⟨2, ["A","B"], [10,40], [1,2], ⟨[[0,20],[0,0]]⟩⟩ : Router) ∧
    solveOut (⟨2, ["A","B"], [10,40], [1,2], ⟨[[0,20],[0,0]]⟩⟩ : Router) "A" "B" 0
      = some 0 ∧
    (solveState (⟨2, ["A","B"], [10,40], [1,2], ⟨[[0,20],[0,0]]⟩⟩ : Router)
        "A" "B" 0).reserve_by_token
      = (⟨2, ["A","B"], [10,40], [1,2], ⟨[[0,20],[0,0]]⟩⟩ : Router).reserve_by_token := by
  have heq : AtEquilibrium (⟨2, ["A","B"], [10,40], [1,2], ⟨[[0,20],[0,0]]⟩⟩ : Router) := by
    intro t ht
    interval_cases t
    · simp only [balanceSum, range_two, List.foldl_cons, List.foldl_nil,
        get_pair_00, get_pair_01]
      norm_num [List.getD]
    · simp only [balanceSum, range_two, List.foldl_cons, List.foldl_nil,
        get_pair_10, get_pair_11]
      norm_num [List.getD]
  have h := zero_trade_idempotent_at_equilibrium
    (⟨2, ["A","B"], [10,40], [1,2], ⟨[[0,20],[0,0]]⟩⟩ : Router) "A" "B" 0 1
    (by decide) (by decide) (by decide) (by decide) heq
    (by norm_num [List.getD])
    (by
      intro t ht
      interval_cases t <;> norm_num [List.getD])
  exact ⟨heq, h.1, h.2⟩

/-- Counterexample to C3 as stated: a same-token trade (`"A"` to `"A"`,
amount 5) on a freshly built single-pool router is not rejected — it
returns the amount 5 as a normal result and mutates the graph state (token
B's price changes from 1 to 2). -/
theorem invalid_trade_not_rejected_counterexample :
    solveOut (Router.new [⟨"A","B",10,40⟩]) "A" "A" 5 = some 5 ∧
    (Router.new [⟨"A","B",10,40⟩]).q_by_token = [1, 1] ∧
    (solveState (Router.new [⟨"A","B",10,40⟩]) "A" "A" 5).q_by_token = [1, 2] := by
  have h400 : ((10:ℚ) * 40) = 400 := by norm_num
  have hBA : ("B":String) ≠ "A" := by decide
  have hAB : ("A":String) ≠ "B" := by decide
  have hnew : Router.new [⟨"A","B",10,40⟩] =
      (⟨2, ["A","B"], [10,40], [1,1], ⟨[[0,20],[0,0]]⟩⟩ : Router) := by
    simp only [Router.new, uniqueTokens, uniqueAux, List.flatMap_cons, List.flatMap_nil,
      List.mem_cons, List.mem_singleton, List.not_mem_nil, List.append_nil,
      List.foldl_cons, List.foldl_nil, buildStep, idxOf?,
      PairwiseLiquidities.with_size, PairwiseLiquidities.addAt, canonIndex, h400,
      fsqrt_400, hBA, hAB, if_true, if_false]
    norm_num [List.replicate, List.set]
  rw [hnew]
  have hu : idxOf? "A" ((⟨2, ["A","B"], [10,40], [1,1], ⟨[[0,20],[0,0]]⟩⟩ : Router)).tokens
      = some 0 := by decide
  have hbump : ({(⟨2, ["A","B"], [10,40], [1,1], ⟨[[0,20],[0,0]]⟩⟩ : Router) with
      reserve_by_token := ([10,40] : List ℚ).set 0 (([10,40] : List ℚ).getD 0 0 + 5) })
      = (⟨2, ["A","B"], [15,40], [1,1], ⟨[[0,20],[0,0]]⟩⟩ : Router) := by
    norm_num
  have hsweep1 : sweep (⟨2, ["A","B"], [15,40], [1,1], ⟨[[0,20],[0,0]]⟩⟩ : Router) 0 =
      ((⟨2, ["A","B"], [15,40], [1,2], ⟨[[0,20],[0,0]]⟩⟩ : Router), 1) := by
    simp [sweep, range_two, sweepStep, denomSum,
      get_pair_00, get_pair_01, get_pair_10, get_pair_11]
    norm_num
  have hsweep2 : sweep (⟨2, ["A","B"], [15,40], [1,2], ⟨[[0,20],[0,0]]⟩⟩ : Router) 0 =
      ((⟨2, ["A","B"], [15,40], [1,2], ⟨[[0,20],[0,0]]⟩⟩ : Router), 0) := by
    simp [sweep, range_two, sweepStep, denomSum,
      get_pair_00, get_pair_01, get_pair_10, get_pair_11]
    norm_num
  have hloop : equilibriumLoop MAX_ITERS
      (⟨2, ["A","B"], [15,40], [1,1], ⟨[[0,20],[0,0]]⟩⟩ : Router) 0 =
      (⟨2, ["A","B"], [15,40], [1,2], ⟨[[0,20],[0,0]]⟩⟩ : Router) :=
    loop_two_sweeps (by norm_num [MAX_ITERS]) (by rw [hsweep1]) (by rw [hsweep2])
      (by rw [hsweep2]; exact tolerance_pos)
  have hnorm : Router.normalize_prices
      (⟨2, ["A","B"], [15,40], [1,2], ⟨[[0,20],[0,0]]⟩⟩ : Router)
      = (⟨2, ["A","B"], [15,40], [1,2], ⟨[[0,20],[0,0]]⟩⟩ : Router) := by
    rw [normalize_prices_eq]
    norm_num
  have hbal : balanceSum
      (⟨2, ["A","B"], [15,40], [1,2], ⟨[[0,20],[0,0]]⟩⟩ : Router) 0 = 10 := by
    simp only [balanceSum, range_two, List.foldl_cons, List.foldl_nil,
      get_pair_00, get_pair_01]
    norm_num
  refine ⟨?_, by norm_num, ?_⟩
  · simp only [solveOut, solve_eq_of_lookup 5 hu hu, hbump, no_arbitrage_eq, hloop, hnorm,
      hbal]
    norm_num
  · simp only [solveState, solve_eq_of_lookup 5 hu hu, hbump, no_arbitrage_eq, hloop, hnorm,
      hbal]

/-- C3 as amended: `solve` performs no validation of the trade parameters —
whenever both token names resolve in the index, the call proceeds and
returns a normal result (mutating the state), even for a same-token trade
or a negative input amount. -/
theorem solve_performs_no_validation (st : Router) (u f : String) (x : ℚ) (i j : ℕ)
    (hu : idxOf? u st.tokens = some i) (hf : idxOf? f st.tokens = some j) :
    ∃ out st', st.solve u f x = .ok (out, st') :=
  ⟨_, _, solve_eq_of_lookup x hu hf⟩

/-- Witness for the amended C3: a same-token trade with a negative amount
still returns a result. -/
theorem solve_performs_no_validation_witness :
    (idxOf? "A" ((⟨2, ["A","B"], [10,40], [1,1],
        ⟨[[0,20],[0,0]]⟩⟩ : Router)).tokens = some 0 ∧ (-1 : ℚ) < 0) ∧
    ∃ out st', (⟨2, ["A","B"], [10,40], [1,1], ⟨[[0,20],[0,0]]⟩⟩ : Router).solve
      "A" "A" (-1) = .ok (out, st') :=
  ⟨⟨by decide, by norm_num⟩,
    solve_performs_no_validation _ "A" "A" (-1) 0 0 (by decide) (by decide)⟩

/-- Counterexample to C9 as stated: a pool with `reserve0 = 0 ≤ 0` is not
rejected — `Router::new` builds the full graph from it, with the zero
reserve summed into the totals and a zero geometric liquidity. -/
theorem construction_accepts_malformed_counterexample :
    ((⟨"A","B",0,40⟩ : UniV2Pool).reserve0 ≤ 0) ∧
    Router.new [⟨"A","B",0,40⟩] =
      (⟨2, ["A","B"], [0,40], [1,1], ⟨[[0,0],[0,0]]⟩⟩ : Router) := by
  have h0 : ((0:ℚ) * 40) = 0 := by norm_num
  have hBA : ("B":String) ≠ "A" := by decide
  have hAB : ("A":String) ≠ "B" := by decide
  refine ⟨by norm_num, ?_⟩
  simp only [Router.new, uniqueTokens, uniqueAux, List.flatMap_cons, List.flatMap_nil,
    List.mem_cons, List.mem_singleton, List.not_mem_nil, List.append_nil,
    List.foldl_cons, List.foldl_nil, buildStep, idxOf?,
    PairwiseLiquidities.with_size, PairwiseLiquidities.addAt, canonIndex, h0,
    fsqrt_zero, hBA, hAB, if_true, if_false]
  norm_num [List.replicate, List.set]

/-- C9 as amended: graph construction performs no reserve validation — for
any distinct pair of names, the constructor totally builds the aggregated
graph from a pool whose first reserve is 0 (contributing 0 to the total and
`√(0·r1) = 0` liquidity) instead of rejecting it. -/
theorem construction_accepts_nonpositive_reserve (t0 t1 : String) (r1 : ℚ)
    (h : t0 ≠ t1) :
    Router.new [⟨t0,t1,0,r1⟩] =
      (⟨2, [t0,t1], [0,r1], [1,1], ⟨[[0,0],[0,0]]⟩⟩ : Router) := by
  have h' : t1 ≠ t0 := h.symm
  simp only [Router.new, uniqueTokens, uniqueAux, List.flatMap_cons, List.flatMap_nil,
    List.mem_cons, List.mem_singleton, List.not_mem_nil, List.append_nil,
    List.foldl_cons, List.foldl_nil, buildStep, idxOf?,
    PairwiseLiquidities.with_size, PairwiseLiquidities.addAt, canonIndex, zero_mul,
    fsqrt_zero, h, h', if_true, if_false]
  norm_num [List.replicate, List.set]

/-- Witness for the amended C9 at concrete names and reserve. -/
theorem construction_accepts_nonpositive_reserve_witness :
    ("A" : String) ≠ "B" ∧
    Router.new [⟨"A","B",0,40⟩] =
      (⟨2, ["A","B"], [0,40], [1,1], ⟨[[0,0],[0,0]]⟩⟩ : Router) :=
  ⟨by decide, construction_accepts_nonpositive_reserve "A" "B" 40 (by decide)⟩

/-- Claim C1: on the graph built from the single pool A(10)-B(40), selling any
amount `x ≥ 0` of A for B returns exactly `x·40 / (10+x)`, the closed-form
constant-product swap amount (exact over `ℚ`, hence within any floating
tolerance). -/
theorem single_pool_closed_form (x : ℚ) (hx : 0 ≤ x) :
    solveOut (Router.new [⟨"A","B",10,40⟩]) "A" "B" x = some (x * 40 / (10 + x)) := by
  have h10x : (0:ℚ) < 10 + x := by positivity
  have h10x' : (10 + x : ℚ) ≠ 0 := h10x.ne'
  have hq : ((10 + x) / 20 : ℚ) ≠ 0 := by positivity
  have h400 : ((10:ℚ) * 40) = 400 := by norm_num
  have hBA : ("B":String) ≠ "A" := by decide
  have hAB : ("A":String) ≠ "B" := by decide
  have hnew : Router.new [⟨"A","B",10,40⟩] =
      (⟨2, ["A","B"], [10,40], [1,1], ⟨[[0,20],[0,0]]⟩⟩ : Router) := by
    simp only [Router.new, uniqueTokens, uniqueAux, List.flatMap_cons, List.flatMap_nil,
      List.mem_cons, List.mem_singleton, List.not_mem_nil, List.append_nil,
      List.foldl_cons, List.foldl_nil, buildStep, idxOf?,
      PairwiseLiquidities.with_size, PairwiseLiquidities.addAt, canonIndex, h400,
      fsqrt_400, hBA, hAB, if_true, if_false]
    norm_num [List.replicate, List.set]
  rw [hnew]
  have hu : idxOf? "A" ((⟨2, ["A","B"], [10,40], [1,1], ⟨[[0,20],[0,0]]⟩⟩ : Router)).tokens
      = some 0 := by decide
  have hf : idxOf? "B" ((⟨2, ["A","B"], [10,40], [1,1], ⟨[[0,20],[0,0]]⟩⟩ : Router)).tokens
      = some 1 := by decide
  have hbump : ({(⟨2, ["A","B"], [10,40], [1,1], ⟨[[0,20],[0,0]]⟩⟩ : Router) with
      reserve_by_token := ([10,40] : List ℚ).set 0 (([10,40] : List ℚ).getD 0 0 + x) })
      = (⟨2, ["A","B"], [10 + x,40], [1,1], ⟨[[0,20],[0,0]]⟩⟩ : Router) := by
    norm_num
  have hsweep1 : (sweep (⟨2, ["A","B"], [10 + x,40], [1,1],
      ⟨[[0,20],[0,0]]⟩⟩ : Router) 1).1 =
      (⟨2, ["A","B"], [10 + x,40], [(10 + x)/20,1], ⟨[[0,20],[0,0]]⟩⟩ : Router) := by
    simp [sweep, range_two, sweepStep, denomSum,
      get_pair_00, get_pair_01, get_pair_10, get_pair_11]
  have hsweep2 : sweep (⟨2, ["A","B"], [10 + x,40], [(10 + x)/20,1],
      ⟨[[0,20],[0,0]]⟩⟩ : Router) 1 =
      ((⟨2, ["A","B"], [10 + x,40], [(10 + x)/20,1], ⟨[[0,20],[0,0]]⟩⟩ : Router), 0) := by
    simp [sweep, range_two, sweepStep, denomSum,
      get_pair_00, get_pair_01, get_pair_10, get_pair_11]
  have hloop : equilibriumLoop MAX_ITERS
      (⟨2, ["A","B"], [10 + x,40], [1,1], ⟨[[0,20],[0,0]]⟩⟩ : Router) 1 =
      (⟨2, ["A","B"], [10 + x,40], [(10 + x)/20,1], ⟨[[0,20],[0,0]]⟩⟩ : Router) :=
    loop_two_sweeps (by norm_num [MAX_ITERS]) hsweep1 (by rw [hsweep2])
      (by rw [hsweep2]; exact tolerance_pos)
  have e1 : ((10 + x)/20 : ℚ) / ((10 + x)/20) = 1 := div_self hq
  have e2 : (1 : ℚ) / ((10 + x)/20) = 20/(10 + x) := one_div_div _ _
  have hnorm : Router.normalize_prices
      (⟨2, ["A","B"], [10 + x,40], [(10 + x)/20,1], ⟨[[0,20],[0,0]]⟩⟩ : Router)
      = (⟨2, ["A","B"], [10 + x,40], [1, 20/(10 + x)], ⟨[[0,20],[0,0]]⟩⟩ : Router) := by
    rw [normalize_prices_eq]
    simp [List.getD, e1, e2]
  have hbal : balanceSum
      (⟨2, ["A","B"], [10 + x,40], [1, 20/(10 + x)], ⟨[[0,20],[0,0]]⟩⟩ : Router) 1
      = 400/(10 + x) := by
    simp [balanceSum, range_two, get_pair_10, get_pair_11, List.getD]
    field_simp
    norm_num
  simp only [solveOut, solve_eq_of_lookup x hu hf, hbump, no_arbitrage_eq, hloop, hnorm,
    hbal]
  norm_num [List.getD]
  field_simp
  ring

/-- Witness for C1 at the concrete amount `x = 3`. -/
theorem single_pool_closed_form_witness :
    (0 : ℚ) ≤ 3 ∧
    solveOut (Router.new [⟨"A","B",10,40⟩]) "A" "B" 3 = some (3 * 40 / (10 + 3)) :=
  ⟨by norm_num, single_pool_closed_form 3 (by norm_num)⟩
